import Mathlib

/-!
Verification of the clustering analytics core
(`coursebuilder/modules/analytics/clustering.py`).

The Python source is shallowly embedded: dictionaries become structures with
`Option` fields for optional keys, Python `for` loops become `List.foldl`,
Python numbers become `ℚ` (scores, bounds) or `Nat` (timestamps, distances,
cluster ids), and the one fallible code path (`max()` over an empty
sequence raises `ValueError`) returns `Option`.
-/

set_option maxHeartbeats 1000000

/-! ## Data model -/

/-- One dimension of a cluster vector, as stored in `ClusterEntity.data['vector']`.
`low` / `high` model the optional `DIM_LOW` / `DIM_HIGH` keys (after the REST
validation has turned them into floats or `None`; the empty-string case of
`_has_left_side` / `_has_right_side` is folded into `none`). -/
structure ClusterDim where
  dimType : String
  dimId : String
  low : Option ℚ
  high : Option ℚ
deriving DecidableEq

/-- One entry of a `StudentVector.vector` list: a dictionary with keys
`DIM_TYPE`, `DIM_ID`, `DIM_VALUE`. -/
structure StudentDim where
  dimType : String
  dimId : String
  value : ℚ
deriving DecidableEq

/-! ## Vector Extractor: question scoring (`StudentVectorGenerator._get_question_score`) -/

/-- One answer record, as produced by `_inverse_submission_data` for a question
dimension: the answer dictionary with the submission `timestamp` copied in.
`weighted_score` is `none` when the `weighted_score` key is absent. -/
structure Answer where
  timestamp : Nat
  weighted_score : Option ℚ
deriving DecidableEq

/-- Python truthiness of `answer.get('weighted_score')`: `None` and `0` are falsy. -/
def scoreTruthy : Option ℚ → Bool
  | none => false
  | some s => s != 0

/-- The loop body of `_get_question_score`: state is `(last_scores, last_timestamp)`.
Mirrors
`if score and answer['timestamp'] > last_timestamp: last_scores = [score]; last_timestamp = ...`
`elif score and answer['timestamp'] == last_timestamp: last_scores.append(score)`. -/
def qstep (acc : List ℚ × Nat) (answer : Answer) : List ℚ × Nat :=
  if scoreTruthy answer.weighted_score ∧ acc.2 < answer.timestamp then
    ([answer.weighted_score.getD 0], answer.timestamp)
  else if scoreTruthy answer.weighted_score ∧ answer.timestamp = acc.2 then
    (acc.1 ++ [answer.weighted_score.getD 0], acc.2)
  else acc

/-- Embedding of `StudentVectorGenerator._get_question_score`: fold the loop
over the data with initial state `last_scores = []`, `last_timestamp = 0`,
then return `fsum(last_scores)/len(last_scores)` if nonempty else `0`. -/
def _get_question_score (data : List Answer) : ℚ :=
  let res := data.foldl qstep ([], 0)
  if res.1 = [] then 0 else res.1.sum / (res.1.length : ℚ)

/-- Modelled from the spec (claim C1 as stated): the maximum submission
timestamp over ALL answers of the dimension; the average of the weighted
scores of the answers tied at that maximum; 0 when there is no answer. -/
def claimedQuestionScore (data : List Answer) : ℚ :=
  match (data.map (·.timestamp)).max? with
  | none => 0
  | some m =>
      let tied := (data.filter (fun a => a.timestamp == m)).filterMap (·.weighted_score)
      if tied = [] then 0 else tied.sum / (tied.length : ℚ)

/-- Running maximum of the timestamps of the score-bearing answers, the way the
source loop tracks `last_timestamp` (seeded with `t`). -/
def maxScoredTs : List Answer → Nat → Nat
  | [], t => t
  | a :: rest, t =>
      maxScoredTs rest (if scoreTruthy a.weighted_score then max t a.timestamp else t)

/-- The weighted scores of the score-bearing answers whose timestamp is `t`,
in data order. -/
def scoresAt (data : List Answer) (t : Nat) : List ℚ :=
  (data.filter (fun a => scoreTruthy a.weighted_score && a.timestamp == t)).map
    (fun a => a.weighted_score.getD 0)

/-- The amended question-scoring rule: only answers with a nonzero weighted
score qualify; among qualifying answers take the maximum timestamp and average
the qualifying scores tied at it; 0 when no answer qualifies. -/
def amendedQuestionScore (data : List Answer) : ℚ :=
  let m := maxScoredTs data 0
  if scoresAt data m = [] then 0
  else (scoresAt data m).sum / ((scoresAt data m).length : ℚ)

lemma le_maxScoredTs (data : List Answer) : ∀ t : Nat, t ≤ maxScoredTs data t := by
  induction data with
  | nil => intro t; simp [maxScoredTs]
  | cons a rest ih =>
      intro t
      simp only [maxScoredTs]
      refine le_trans ?_ (ih _)
      split <;> simp

lemma scoresAt_cons (a : Answer) (rest : List Answer) (t : Nat) :
    scoresAt (a :: rest) t =
      (if scoreTruthy a.weighted_score && a.timestamp == t
        then [a.weighted_score.getD 0] else []) ++ scoresAt rest t := by
  simp only [scoresAt, List.filter_cons]
  split <;> simp_all

lemma qfold_eq (data : List Answer) : ∀ (ls : List ℚ) (ts : Nat),
    data.foldl qstep (ls, ts) =
      ((if maxScoredTs data ts = ts then ls else []) ++ scoresAt data (maxScoredTs data ts),
       maxScoredTs data ts) := by
  induction data with
  | nil => intro ls ts; simp [maxScoredTs, scoresAt]
  | cons a rest ih =>
      intro ls ts
      by_cases htr : scoreTruthy a.weighted_score
      · rcases Nat.lt_trichotomy ts a.timestamp with hlt | heq | hgt
        · -- new strict maximum: state resets to ([score], a.timestamp)
          have hstep : qstep (ls, ts) a = ([a.weighted_score.getD 0], a.timestamp) := by
            simp [qstep, htr, hlt]
          have hm : maxScoredTs (a :: rest) ts = maxScoredTs rest a.timestamp := by
            simp [maxScoredTs, htr, Nat.max_eq_right (Nat.le_of_lt hlt)]
          have hMge : a.timestamp ≤ maxScoredTs rest a.timestamp := le_maxScoredTs _ _
          have hMne : ¬ (maxScoredTs rest a.timestamp = ts) := by omega
          simp only [List.foldl_cons, hstep, ih, hm, scoresAt_cons, Prod.mk.injEq]
          refine ⟨?_, by trivial⟩
          rw [if_neg hMne]
          by_cases hts : a.timestamp = maxScoredTs rest a.timestamp
          · rw [if_pos hts.symm]
            have hb : (scoreTruthy a.weighted_score &&
                (a.timestamp == maxScoredTs rest a.timestamp)) = true := by
              rw [htr, Bool.true_and]
              exact beq_iff_eq.mpr hts
            rw [hb]
            simp
          · rw [if_neg (fun h => hts h.symm)]
            have hb : (scoreTruthy a.weighted_score &&
                (a.timestamp == maxScoredTs rest a.timestamp)) = false := by
              rw [htr, Bool.true_and]
              exact beq_eq_false_iff_ne.mpr hts
            rw [hb]
            simp
        · -- tie with the running maximum: score appended
          have hstep : qstep (ls, ts) a = (ls ++ [a.weighted_score.getD 0], ts) := by
            simp only [qstep]
            rw [if_neg, if_pos ⟨htr, heq.symm⟩]
            rintro ⟨-, h⟩; omega
          have hm : maxScoredTs (a :: rest) ts = maxScoredTs rest ts := by
            simp only [maxScoredTs, htr, if_true, ← heq, Nat.max_self]
          have hMge : ts ≤ maxScoredTs rest ts := le_maxScoredTs _ _
          simp only [List.foldl_cons, hstep, ih, hm, scoresAt_cons, Prod.mk.injEq]
          refine ⟨?_, by trivial⟩
          by_cases hts : maxScoredTs rest ts = ts
          · rw [if_pos hts, if_pos hts]
            have hb : (scoreTruthy a.weighted_score &&
                (a.timestamp == maxScoredTs rest ts)) = true := by
              rw [htr, Bool.true_and]
              exact beq_iff_eq.mpr (by omega)
            rw [hb]
            simp
          · rw [if_neg hts, if_neg hts]
            have hb : (scoreTruthy a.weighted_score &&
                (a.timestamp == maxScoredTs rest ts)) = false := by
              rw [htr, Bool.true_and]
              exact beq_eq_false_iff_ne.mpr (by omega)
            rw [hb]
            simp
        · -- stale answer: state unchanged
          have hstep : qstep (ls, ts) a = (ls, ts) := by
            simp only [qstep]
            rw [if_neg, if_neg]
            · rintro ⟨-, h⟩; omega
            · rintro ⟨-, h⟩; omega
          have hm : maxScoredTs (a :: rest) ts = maxScoredTs rest ts := by
            simp [maxScoredTs, htr, Nat.max_eq_left (Nat.le_of_lt hgt)]
          have hMge : ts ≤ maxScoredTs rest ts := le_maxScoredTs _ _
          simp only [List.foldl_cons, hstep, ih, hm, scoresAt_cons, Prod.mk.injEq]
          refine ⟨?_, by trivial⟩
          have hb : (scoreTruthy a.weighted_score &&
              (a.timestamp == maxScoredTs rest ts)) = false := by
            rw [htr, Bool.true_and]
            exact beq_eq_false_iff_ne.mpr (by omega)
          rw [hb]
          simp
      · -- falsy score: the answer is ignored entirely
        have hstep : qstep (ls, ts) a = (ls, ts) := by
          simp [qstep, htr]
        have hm : maxScoredTs (a :: rest) ts = maxScoredTs rest ts := by
          simp [maxScoredTs, htr]
        simp only [List.foldl_cons, hstep, ih, hm, scoresAt_cons, Prod.mk.injEq]
        refine ⟨?_, by trivial⟩
        have hb : (scoreTruthy a.weighted_score &&
            (a.timestamp == maxScoredTs rest ts)) = false := by
          simp [htr]
        rw [hb]
        simp

/-- Claim C1 (corrected): the extracted question score averages the weighted
scores of the score-bearing answers (nonzero `weighted_score`) tied at the
maximum timestamp over the score-bearing answers, and is 0 when no answer
bears a nonzero score. -/
theorem question_score_avg_of_latest_scored (data : List Answer) :
    _get_question_score data = amendedQuestionScore data := by
  have h := qfold_eq data [] 0
  simp only [_get_question_score, amendedQuestionScore, h]
  split <;> simp_all

/-- Claim C1 counterexample: with an answer of weighted score 0 at the latest
timestamp 9 and an answer of score 3/5 at timestamp 5, the code returns 3/5
(the zero-score answer is skipped even for finding the maximum timestamp),
while the claim as stated averages the scores at timestamp 9 and yields 0. -/
theorem question_score_zero_score_answer_shifts_max :
    _get_question_score [⟨9, some 0⟩, ⟨5, some (3/5)⟩] = 3/5 ∧
    claimedQuestionScore [⟨9, some 0⟩, ⟨5, some (3/5)⟩] = 0 ∧
    _get_question_score [⟨9, some 0⟩, ⟨5, some (3/5)⟩] ≠
      claimedQuestionScore [⟨9, some 0⟩, ⟨5, some (3/5)⟩] := by
  refine ⟨by norm_num [_get_question_score, qstep, scoreTruthy],
    by simp [claimedQuestionScore, List.max?, List.filterMap_cons], ?_⟩
  rw [show _get_question_score [⟨9, some 0⟩, ⟨5, some (3/5)⟩] = 3/5 from
        by norm_num [_get_question_score, qstep, scoreTruthy],
      show claimedQuestionScore [⟨9, some 0⟩, ⟨5, some (3/5)⟩] = 0 from
        by simp [claimedQuestionScore, List.max?, List.filterMap_cons]]
  norm_num

/-! ## Distance Engine (`hamming_distance`, `StudentVector.get_dimension_value`) -/

/-- Embedding of `StudentVector.get_dimension_value`: the first `DIM_VALUE`
among the entries whose id and type both match, `none` when there is none. -/
def get_dimension_value (vector : List StudentDim) (dim_id dim_type : String) : Option ℚ :=
  ((vector.filter (fun d => d.dimId == dim_id && d.dimType == dim_type)).map (·.value)).head?

/-- Whether `dim[DIM_LOW]` is set (`_has_left_side`; the empty-string case is
folded into `none`). -/
def _has_left_side (dim : ClusterDim) : Bool := dim.low.isSome

/-- Whether `dim[DIM_HIGH]` is set (`_has_right_side`). -/
def _has_right_side (dim : ClusterDim) : Bool := dim.high.isSome

/-- The local `fits_left_side` of `hamming_distance`:
`not _has_left_side(dim) or dim[DIM_LOW] <= value`. -/
def fits_left_side (dim : ClusterDim) (value : ℚ) : Bool :=
  match dim.low with
  | none => true
  | some low => low ≤ value

/-- The local `fits_right_side` of `hamming_distance`:
`not _has_right_side(dim) or dim[DIM_HIGH] >= value`. -/
def fits_right_side (dim : ClusterDim) (value : ℚ) : Bool :=
  match dim.high with
  | none => true
  | some high => value ≤ high

/-- The loop body condition of `hamming_distance`: look the dimension up in the
student vector, replace a falsy value (`None`, and `0` is a fixpoint) by `0`,
and test `not fits_left_side(dim, value) or not fits_right_side(dim, value)`. -/
def dimRejects (student_vector : List StudentDim) (dim : ClusterDim) : Bool :=
  let value := (get_dimension_value student_vector dim.dimId dim.dimType).getD 0
  !fits_left_side dim value || !fits_right_side dim value

/-- Embedding of `hamming_distance`: count the cluster dimensions whose range
the student's value violates. -/
def hamming_distance (vector : List ClusterDim) (student_vector : List StudentDim) : Nat :=
  vector.foldl
    (fun distance dim => if dimRejects student_vector dim then distance + 1 else distance) 0

lemma hamming_foldl_init (sv : List StudentDim) (v : List ClusterDim) : ∀ n : Nat,
    v.foldl (fun distance dim => if dimRejects sv dim then distance + 1 else distance) n
      = n + (v.filter (dimRejects sv)).length := by
  induction v with
  | nil => intro n; simp
  | cons dim rest ih =>
      intro n
      by_cases h : dimRejects sv dim <;>
        simp only [List.foldl_cons, List.filter_cons, h, if_true, if_false,
          Bool.false_eq_true, ite_true, ite_false, List.length_cons, ih] <;>
        omega

lemma hamming_distance_eq_filter (v : List ClusterDim) (sv : List StudentDim) :
    hamming_distance v sv = (v.filter (dimRejects sv)).length := by
  simpa [hamming_distance] using hamming_foldl_init sv v 0

/-- Claim C9: the Hamming distance is at most the number of cluster dimensions
(and non-negative by its `Nat` type), the empty cluster vector has distance 0
to every student vector, and a dimension with neither bound never rejects. -/
theorem hamming_distance_bounds (vector : List ClusterDim) (sv : List StudentDim) :
    hamming_distance vector sv ≤ vector.length ∧
    hamming_distance ([] : List ClusterDim) sv = 0 ∧
    (∀ dim : ClusterDim, dim.low = none → dim.high = none →
      hamming_distance (dim :: vector) sv = hamming_distance vector sv) := by
  refine ⟨?_, rfl, ?_⟩
  · rw [hamming_distance_eq_filter]
    exact List.length_filter_le _ _
  · intro dim hl hh
    rw [hamming_distance_eq_filter, hamming_distance_eq_filter, List.filter_cons]
    have hrej : dimRejects sv dim = false := by
      simp [dimRejects, fits_left_side, fits_right_side, hl, hh]
    simp [hrej]

/-- Witness for claim C9 at a concrete no-bound dimension and cluster vector. -/
theorem hamming_distance_bounds_witness :
    hamming_distance [⟨"u", "1", some 1, none⟩] [] ≤ 1 ∧
    hamming_distance [⟨"l", "2", none, none⟩, ⟨"u", "1", some 1, none⟩] [] =
      hamming_distance [⟨"u", "1", some 1, none⟩] [] :=
  ⟨(hamming_distance_bounds [⟨"u", "1", some 1, none⟩] []).1,
   (hamming_distance_bounds [⟨"u", "1", some 1, none⟩] []).2.2
      ⟨"l", "2", none, none⟩ rfl rfl⟩

/-- Claim C8: when the student vector has no entry matching the cluster
dimension's (type, id), the lookup yields `None` and the dimension's
contribution to the distance is decided by testing the bounds against 0. -/
theorem hamming_missing_dimension_value_zero (sv : List StudentDim) (dim : ClusterDim)
    (h : ∀ s ∈ sv, ¬ (s.dimId = dim.dimId ∧ s.dimType = dim.dimType)) :
    get_dimension_value sv dim.dimId dim.dimType = none ∧
    ∀ rest : List ClusterDim, hamming_distance (dim :: rest) sv =
      hamming_distance rest sv +
        (if !fits_left_side dim 0 || !fits_right_side dim 0 then 1 else 0) := by
  have hfil : sv.filter (fun d => d.dimId == dim.dimId && d.dimType == dim.dimType) = [] := by
    rw [List.filter_eq_nil]
    intro s hs
    have hns := h s hs
    simp only [Bool.and_eq_true, beq_iff_eq]
    exact fun hc => hns ⟨hc.1, hc.2⟩
  have hget : get_dimension_value sv dim.dimId dim.dimType = none := by
    simp [get_dimension_value, hfil]
  refine ⟨hget, ?_⟩
  intro rest
  rw [hamming_distance_eq_filter, hamming_distance_eq_filter, List.filter_cons]
  have hrej : dimRejects sv dim = (!fits_left_side dim 0 || !fits_right_side dim 0) := by
    simp [dimRejects, hget]
  rw [hrej]
  by_cases hb : (!fits_left_side dim 0 || !fits_right_side dim 0) = true <;>
    simp [hb] <;> omega

/-- Witness for claim C8: a student vector without the looked-up question
dimension; the dimension with lower bound 1 then rejects at value 0. -/
theorem hamming_missing_dimension_value_zero_witness :
    (∀ s ∈ ([⟨"u", "1", 5⟩] : List StudentDim),
      ¬ (s.dimId = "1:None:2" ∧ s.dimType = "q")) ∧
    get_dimension_value [⟨"u", "1", 5⟩] "1:None:2" "q" = none ∧
    hamming_distance [⟨"q", "1:None:2", some 1, none⟩] [⟨"u", "1", 5⟩] =
      hamming_distance [] [⟨"u", "1", 5⟩] +
        (if !fits_left_side ⟨"q", "1:None:2", some 1, none⟩ 0 ||
            !fits_right_side ⟨"q", "1:None:2", some 1, none⟩ 0 then 1 else 0) :=
  ⟨by decide,
   (hamming_missing_dimension_value_zero [⟨"u", "1", 5⟩]
      ⟨"q", "1:None:2", some 1, none⟩ (by decide)).1,
   (hamming_missing_dimension_value_zero [⟨"u", "1", 5⟩]
      ⟨"q", "1:None:2", some 1, none⟩ (by decide)).2 []⟩

/-! ## Vector Extractor: unit scoring (`StudentVectorGenerator._get_unit_score`) -/

/-- One raw activity record as consumed by `_get_unit_score`: a dictionary in
which the `unit_id` and `last_score` keys may be absent (`none`). -/
structure ActivityRecord where
  unit_id : Option String
  last_score : Option ℚ
deriving DecidableEq

/-- A unit dimension as consumed by `_get_unit_score`. The source stores
`extra-info` as a JSON string and parses it with `json.loads`; it is modelled
already parsed: `none` = the `DIM_EXTRA_INFO` key is absent, `some none` = the
JSON object has no `unit_scored_lessons` key, `some (some n)` = the count `n`. -/
structure UnitDimension where
  id : String
  extra_info : Option (Option Int)
deriving DecidableEq

/-- The `scored_lessons` divisor computed at the top of `_get_unit_score`:
1 when `extra-info` or the count is absent, else `max(count, 1)`. -/
def scored_lessons_of (dimension : UnitDimension) : Int :=
  match dimension.extra_info with
  | none => 1
  | some none => 1
  | some (some n) => max n 1

/-- The loop body of `_get_unit_score`: add `last_score` when the record has
both keys and its `unit_id` equals the dimension id. -/
def unitScoreStep (dimension : UnitDimension) (score : ℚ) (record : ActivityRecord) : ℚ :=
  match record.unit_id, record.last_score with
  | some u, some ls => if u = dimension.id then score + ls else score
  | _, _ => score

/-- Embedding of `StudentVectorGenerator._get_unit_score`. -/
def _get_unit_score (data : List ActivityRecord) (dimension : UnitDimension) : ℚ :=
  (data.foldl (unitScoreStep dimension) 0) / (scored_lessons_of dimension : ℚ)

/-- A record is relevant to the unit dimension when it carries both keys and
matches the dimension id. -/
def unitMatches (dimension : UnitDimension) (record : ActivityRecord) : Bool :=
  record.unit_id == some dimension.id && record.last_score.isSome

lemma unitScore_foldl (dimension : UnitDimension) (data : List ActivityRecord) :
    ∀ s : ℚ, data.foldl (unitScoreStep dimension) s =
      s + ((data.filter (unitMatches dimension)).filterMap (·.last_score)).sum := by
  induction data with
  | nil => intro s; simp
  | cons r rest ih =>
      intro s
      rcases hu : r.unit_id with - | u <;> rcases hl : r.last_score with - | ls
      · have hstep : unitScoreStep dimension s r = s := by simp [unitScoreStep, hu, hl]
        have hmat : unitMatches dimension r = false := by simp [unitMatches, hu]
        simp [List.foldl_cons, hstep, ih, List.filter_cons, hmat]
      · have hstep : unitScoreStep dimension s r = s := by simp [unitScoreStep, hu, hl]
        have hmat : unitMatches dimension r = false := by simp [unitMatches, hu]
        simp [List.foldl_cons, hstep, ih, List.filter_cons, hmat]
      · have hstep : unitScoreStep dimension s r = s := by simp [unitScoreStep, hu, hl]
        have hmat : unitMatches dimension r = false := by simp [unitMatches, hu, hl]
        simp [List.foldl_cons, hstep, ih, List.filter_cons, hmat]
      · by_cases hid : u = dimension.id
        · have hstep : unitScoreStep dimension s r = s + ls := by
            simp [unitScoreStep, hu, hl, hid]
          have hmat : unitMatches dimension r = true := by simp [unitMatches, hu, hl, hid]
          simp only [List.foldl_cons, hstep, ih, List.filter_cons, hmat, if_true,
            List.filterMap_cons, hl, List.sum_cons]
          ring
        · have hstep : unitScoreStep dimension s r = s := by
            simp [unitScoreStep, hu, hl, hid]
          have hmat : unitMatches dimension r = false := by simp [unitMatches, hu, hid]
          simp [List.foldl_cons, hstep, ih, List.filter_cons, hmat]

/-- Claim C7: the unit score is the sum of `last_score` over the records
matching the dimension id, divided by the scored-lesson count; the divisor is
at least 1 (so the division-by-zero branch is unreachable) and defaults to 1
when `extra-info` or the count inside it is absent. -/
theorem unit_score_sum_div_scored_lessons (data : List ActivityRecord)
    (dimension : UnitDimension) :
    1 ≤ scored_lessons_of dimension ∧
    _get_unit_score data dimension =
      ((data.filter (unitMatches dimension)).filterMap (·.last_score)).sum /
        (scored_lessons_of dimension : ℚ) ∧
    ((dimension.extra_info = none ∨ dimension.extra_info = some none) →
      scored_lessons_of dimension = 1) := by
  refine ⟨?_, ?_, ?_⟩
  · rcases h : dimension.extra_info with - | ei
    · simp [scored_lessons_of, h]
    · rcases ei with - | n <;> simp [scored_lessons_of, h, le_max_right]
  · rw [_get_unit_score, unitScore_foldl dimension data 0, zero_add]
  · rintro (h | h) <;> simp [scored_lessons_of, h]

/-- Witness for claim C7, reproducing the spec's example: a unit with two
scored lessons and lesson scores summing to 3/2 has unit value 3/4. -/
theorem unit_score_sum_div_scored_lessons_witness :
    1 ≤ scored_lessons_of ⟨"7", some (some 2)⟩ ∧
    _get_unit_score [⟨some "7", some 1⟩, ⟨some "7", some (1/2)⟩] ⟨"7", some (some 2)⟩
      = 3/4 := by
  refine ⟨(unit_score_sum_div_scored_lessons [] ⟨"7", some (some 2)⟩).1, ?_⟩
  rw [(unit_score_sum_div_scored_lessons
        [⟨some "7", some 1⟩, ⟨some "7", some (1/2)⟩] ⟨"7", some (some 2)⟩).2.1]
  norm_num [unitMatches, scored_lessons_of, List.filter_cons, List.filterMap_cons]

/-! ## Aggregator (`ClusteringGenerator.reduce`) -/

/-- The in-place accumulation loop at the end of `ClusteringGenerator.reduce`
(`list_distances[index] += list_distances[index - 1]` left to right): a running
prefix sum with carry `acc`. -/
def accumulate : Nat → List Nat → List Nat
  | _, [] => []
  | acc, x :: rest => (acc + x) :: accumulate (acc + x) rest

/-- Entry `d` of the `distances` defaultdict after the counting loop: the
number of observations with distance exactly `d` (0 for unobserved keys,
matching the `[0] * (max + 1)` initialisation). -/
def rawCounts (ds : List Nat) (d : Nat) : Nat := (ds.filter (fun x => x == d)).length

/-- The source's `max([int(k) for k in distances])` over the observed
distances; for a nonempty `Nat` list `foldl max 0` is exactly that maximum. -/
def maxObserved (ds : List Nat) : Nat := ds.foldl max 0

/-- The `list_distances` array right before `reduce` yields: counts by exact
distance for `d = 0 .. max`, then accumulated left to right. -/
def cumulativeCounts (ds : List Nat) : List Nat :=
  accumulate 0 ((List.range (maxObserved ds + 1)).map (rawCounts ds))

/-- Embedding of the `count` branch of `ClusteringGenerator.reduce` (scalar
`item_id`): each value is `(student_id, distance)` and `distances[value[1]] += 1`.
Python's `max()` raises `ValueError` on an empty group, hence `none`. -/
def reduce_count (values : List (String × Nat)) : Option (List Nat) :=
  if values = [] then none
  else some (cumulativeCounts (values.map (·.2)))

/-- Embedding of the `intersection` branch of `ClusteringGenerator.reduce`
(list `item_id`): each value is `(student_id, distance1, distance2)` and the
bucket is `max(value[1], value[2])` (the source's local name `min_distance`
notwithstanding). `none` models the `ValueError` of `max()` on an empty group. -/
def reduce_intersection (values : List (String × Nat × Nat)) : Option (List Nat) :=
  if values = [] then none
  else some (cumulativeCounts (values.map (fun value => max value.2.1 value.2.2)))

lemma accumulate_length : ∀ (a : Nat) (l : List Nat), (accumulate a l).length = l.length := by
  intro a l
  induction l generalizing a with
  | nil => simp [accumulate]
  | cons x rest ih => simp [accumulate, ih]

lemma accumulate_getD : ∀ (l : List Nat) (a i : Nat), i < l.length →
    (accumulate a l).getD i 0 = a + (l.take (i + 1)).sum := by
  intro l
  induction l with
  | nil => intro a i h; simp at h
  | cons x rest ih =>
      intro a i h
      cases i with
      | zero => simp [accumulate]
      | succ i =>
          have hlen : i < rest.length := by simpa using h
          simp only [accumulate, List.getD_cons_succ, List.take_succ_cons, List.sum_cons,
            ih (a + x) i hlen]
          omega

lemma count_le_succ (d : Nat) : ∀ ds : List Nat,
    (ds.filter (fun x => decide (x ≤ d + 1))).length
      = (ds.filter (fun x => decide (x ≤ d))).length
        + (ds.filter (fun x => x == d + 1)).length := by
  intro ds
  induction ds with
  | nil => simp
  | cons x rest ih =>
      simp only [List.filter_cons]
      by_cases h1 : x ≤ d
      · have h2 : x ≤ d + 1 := by omega
        have h3 : ¬ ((x == d + 1) = true) := by
          simp only [beq_iff_eq]
          omega
        rw [if_pos (decide_eq_true h2), if_pos (decide_eq_true h1), if_neg h3]
        simp only [List.length_cons, ih]
        omega
      · by_cases h2 : x = d + 1
        · have h3 : x ≤ d + 1 := by omega
          have h4 : (x == d + 1) = true := beq_iff_eq.mpr h2
          have h5 : ¬ ((decide (x ≤ d)) = true) := by
            simp only [decide_eq_true_eq]
            omega
          rw [if_pos (decide_eq_true h3), if_neg h5, if_pos h4]
          simp only [List.length_cons, ih]
          omega
        · have h3 : ¬ ((decide (x ≤ d + 1)) = true) := by
            simp only [decide_eq_true_eq]
            omega
          have h5 : ¬ ((decide (x ≤ d)) = true) := by
            simp only [decide_eq_true_eq]
            omega
          have h4 : ¬ ((x == d + 1) = true) := by
            simp only [beq_iff_eq]
            omega
          rw [if_neg h3, if_neg h5, if_neg h4]
          exact ih

lemma prefix_count (ds : List Nat) : ∀ d : Nat,
    ((List.range (d + 1)).map (rawCounts ds)).sum
      = (ds.filter (fun x => decide (x ≤ d))).length := by
  intro d
  induction d with
  | zero =>
      have h : (fun x : Nat => (x == 0)) = fun x : Nat => decide (x ≤ 0) := by
        funext x; cases x <;> simp
      simp [List.range_succ, rawCounts, h]
  | succ d ih =>
      rw [List.range_succ, List.map_append, List.sum_append, ih, count_le_succ d ds]
      simp [rawCounts]

lemma cumulativeCounts_length (ds : List Nat) :
    (cumulativeCounts ds).length = maxObserved ds + 1 := by
  simp [cumulativeCounts, accumulate_length]

lemma cumulativeCounts_getD (ds : List Nat) (d : Nat) (hd : d < (cumulativeCounts ds).length) :
    (cumulativeCounts ds).getD d 0 = (ds.filter (fun x => decide (x ≤ d))).length := by
  have hlen : d < ((List.range (maxObserved ds + 1)).map (rawCounts ds)).length := by
    simpa [cumulativeCounts, accumulate_length] using hd
  rw [cumulativeCounts, accumulate_getD _ 0 d hlen, zero_add]
  have hdm : d + 1 ≤ maxObserved ds + 1 := by
    have := hd
    simp only [cumulativeCounts_length] at this
    omega
  rw [← List.map_take, List.take_range, Nat.min_eq_left hdm, prefix_count]

lemma count_le_mono (ds : List Nat) (d : Nat) :
    (ds.filter (fun x => decide (x ≤ d))).length
      ≤ (ds.filter (fun x => decide (x ≤ d + 1))).length := by
  rw [count_le_succ]
  omega

lemma le_maxObserved_aux : ∀ (ds : List Nat) (a : Nat), a ≤ ds.foldl max a ∧
    ∀ x ∈ ds, x ≤ ds.foldl max a := by
  intro ds
  induction ds with
  | nil => intro a; simp
  | cons y rest ih =>
      intro a
      refine ⟨?_, ?_⟩
      · calc a ≤ max a y := le_max_left _ _
          _ ≤ rest.foldl max (max a y) := (ih (max a y)).1
          _ = (y :: rest).foldl max a := by simp
      · intro x hx
        rcases List.mem_cons.mp hx with h | h
        · subst h
          calc x ≤ max a x := le_max_right _ _
            _ ≤ rest.foldl max (max a x) := (ih (max a x)).1
            _ = (x :: rest).foldl max a := by simp
        · simpa using (ih (max a y)).2 x h

lemma foldl_max_mem : ∀ (ds : List Nat) (a : Nat), ds.foldl max a = a ∨ ds.foldl max a ∈ ds := by
  intro ds
  induction ds with
  | nil => intro a; simp
  | cons y rest ih =>
      intro a
      have hfold : (y :: rest).foldl max a = rest.foldl max (max a y) := by simp
      rcases ih (max a y) with h | h
      · rcases max_choice a y with hm | hm
        · left; rw [hfold, h, hm]
        · right; rw [hfold, h, hm]; exact List.mem_cons_self _ _
      · right; rw [hfold]; exact List.mem_cons_of_mem _ h

lemma maxObserved_mem (ds : List Nat) (h : ds ≠ []) : maxObserved ds ∈ ds := by
  rcases foldl_max_mem ds 0 with h0 | hm
  · rcases ds with - | ⟨x, rest⟩
    · exact absurd rfl h
    · have hx : x ≤ maxObserved (x :: rest) := (le_maxObserved_aux (x :: rest) 0).2 x (by simp)
      have hz : maxObserved (x :: rest) = 0 := h0
      have : x = 0 := by omega
      simp [maxObserved] at hz ⊢
      rw [hz]
      left
      omega
  · exact hm

lemma le_maxObserved (ds : List Nat) (x : Nat) (hx : x ∈ ds) : x ≤ maxObserved ds :=
  (le_maxObserved_aux ds 0).2 x hx

lemma length_filter_comp {α β : Type} (f : α → β) (p : β → Bool) (l : List α) :
    ((l.map f).filter p).length = (l.filter (fun x => p (f x))).length := by
  induction l with
  | nil => simp
  | cons x rest ih =>
      simp only [List.map_cons, List.filter_cons]
      by_cases h : p (f x) = true
      · rw [if_pos h, if_pos h]
        simp [ih]
      · rw [if_neg h, if_neg h]
        exact ih

/-- Claim C4: on a non-empty group the aggregator outputs an array of length
(maximum observed distance) + 1 whose entry `d` is the number of observations
with distance at most `d`, and the array is monotonically non-decreasing. -/
theorem reduce_count_cumulative_distribution (values : List (String × Nat)) (out : List Nat)
    (h : reduce_count values = some out) :
    out.length = maxObserved (values.map (·.2)) + 1 ∧
    (∀ x ∈ values.map (·.2), x ≤ maxObserved (values.map (·.2))) ∧
    maxObserved (values.map (·.2)) ∈ values.map (·.2) ∧
    (∀ d : Nat, d < out.length →
      out.getD d 0 = ((values.map (·.2)).filter (fun x => decide (x ≤ d))).length) ∧
    (∀ d : Nat, d + 1 < out.length → out.getD d 0 ≤ out.getD (d + 1) 0) := by
  have hne : values ≠ [] := by
    intro hv
    rw [hv] at h
    simp [reduce_count] at h
  have hout : cumulativeCounts (values.map (·.2)) = out := by
    rw [reduce_count, if_neg hne] at h
    exact Option.some.inj h
  have hdsne : values.map (·.2) ≠ [] := by
    rcases values with - | ⟨v, rest⟩
    · exact absurd rfl hne
    · simp
  subst hout
  refine ⟨cumulativeCounts_length _,
    fun x hx => le_maxObserved _ x hx,
    maxObserved_mem _ hdsne,
    fun d hd => cumulativeCounts_getD _ d hd, ?_⟩
  intro d hd
  rw [cumulativeCounts_getD _ d (by omega), cumulativeCounts_getD _ (d + 1) hd]
  exact count_le_mono _ d

/-- Witness for claim C4, reproducing the spec's example: observed distances
0, 0, 1, 2 give the cumulative array 2, 3, 4. -/
theorem reduce_count_cumulative_distribution_witness :
    reduce_count [("a", 0), ("b", 0), ("c", 1), ("d", 2)] = some [2, 3, 4] ∧
    ([2, 3, 4] : List Nat).length
      = maxObserved ([("a", 0), ("b", 0), ("c", 1), ("d", 2)].map (·.2)) + 1 :=
  ⟨by rfl,
   (reduce_count_cumulative_distribution [("a", 0), ("b", 0), ("c", 1), ("d", 2)]
      [2, 3, 4] (by rfl)).1⟩

/-- Claim C3: on a non-empty cluster-pair group, entry `d` of the output counts
exactly the observations whose two distances both fit within `d`, i.e. each
observation is bucketed at the maximum of its two distances. -/
theorem reduce_intersection_buckets_at_max (values : List (String × Nat × Nat))
    (out : List Nat) (h : reduce_intersection values = some out)
    (d : Nat) (hd : d < out.length) :
    out.getD d 0 = (values.filter (fun v => decide (max v.2.1 v.2.2 ≤ d))).length := by
  have hne : values ≠ [] := by
    intro hv
    rw [hv] at h
    simp [reduce_intersection] at h
  have hout : cumulativeCounts (values.map (fun v => max v.2.1 v.2.2)) = out := by
    rw [reduce_intersection, if_neg hne] at h
    exact Option.some.inj h
  subst hout
  rw [cumulativeCounts_getD _ d hd, length_filter_comp]

/-- Witness for claim C3 at the single observation (distance 0 to the first
cluster, distance 1 to the second): it is bucketed at distance 1. -/
theorem reduce_intersection_buckets_at_max_witness :
    reduce_intersection [("s", 0, 1)] = some [0, 1] ∧ 1 < ([0, 1] : List Nat).length ∧
    ([0, 1] : List Nat).getD 1 0 =
      (([("s", 0, 1)] : List (String × Nat × Nat)).filter
        (fun v => decide (max v.2.1 v.2.2 ≤ 1))).length :=
  ⟨by rfl, by decide,
   reduce_intersection_buckets_at_max [("s", 0, 1)] [0, 1] (by rfl) 1 (by decide)⟩

/-- Exchanging the two distance components inside one pairwise observation
(or leaving it unchanged). -/
def obsSwapRel (a b : String × Nat × Nat) : Prop :=
  b = a ∨ (b.1 = a.1 ∧ b.2.1 = a.2.2 ∧ b.2.2 = a.2.1)

/-- Claim C10: the intersection statistic is unchanged when, in any of the
pairwise observations, the two distance components are exchanged — the
combined distance is their maximum, which is commutative. -/
theorem reduce_intersection_swap_insensitive (v1 v2 : List (String × Nat × Nat))
    (h : List.Forall₂ obsSwapRel v1 v2) :
    reduce_intersection v1 = reduce_intersection v2 := by
  have hmap : v1.map (fun v => max v.2.1 v.2.2) = v2.map (fun v => max v.2.1 v.2.2) := by
    induction h with
    | nil => rfl
    | cons hr hrest ih =>
        simp only [List.map_cons, ih]
        congr 1
        rcases hr with he | ⟨-, h1, h2⟩
        · rw [he]
        · rw [h1, h2, max_comm]
  have hlen := List.Forall₂.length_eq h
  by_cases h1 : v1 = []
  · have h2 : v2 = [] := by
      rw [h1] at hlen
      exact List.eq_nil_of_length_eq_zero hlen.symm
    rw [h1, h2]
  · have h2 : v2 ≠ [] := by
      intro hx
      rw [hx] at hlen
      exact h1 (List.eq_nil_of_length_eq_zero hlen)
    rw [reduce_intersection, reduce_intersection, if_neg h1, if_neg h2, hmap]

/-- Witness for claim C10: swapping the two distances of the one observation
leaves the output unchanged. -/
theorem reduce_intersection_swap_insensitive_witness :
    List.Forall₂ obsSwapRel [("s", 1, 2)] [("s", 2, 1)] ∧
    reduce_intersection [("s", 1, 2)] = reduce_intersection [("s", 2, 1)] := by
  have hf : List.Forall₂ obsSwapRel [("s", 1, 2)] [("s", 2, 1)] :=
    List.Forall₂.cons (Or.inr ⟨rfl, rfl, rfl⟩) List.Forall₂.nil
  exact ⟨hf, reduce_intersection_swap_insensitive _ _ hf⟩

/-! ## Cluster Classifier (`ClusteringGenerator.map`) -/

/-- The `MIN_DISTANCE` class attribute of `ClusteringGenerator`. -/
def MIN_DISTANCE : Nat := 0

/-- The `MAX_DISTANCE` class attribute of `ClusteringGenerator`; it is also the
fallback of `getattr(self, 'MAX_DISTANCE', 2)` in
`build_additional_mapper_params`, so the default threshold is 2. -/
def MAX_DISTANCE : Nat := 2

/-- One cluster as passed in `mapper_params['clusters']`: its datastore id and
its dimension vector. -/
structure Cluster where
  id : Nat
  vector : List ClusterDim
deriving DecidableEq

/-- One `(key, value)` pair yielded by `ClusteringGenerator.map`.
`single key sid d` is the per-cluster yield `(cluster_id, (student_id, distance))`.
`pair key1 key2 sid d d2` is the pair yield with key `(cluster2_id, cluster_id)`
and value `(student_id, distance, distance2)` laid out exactly as the source
builds it: `d` is the distance to the cluster being processed (the SECOND id of
the key) and `d2` the stored distance of the earlier cluster (the FIRST id). -/
inductive Emission where
  | single (key : Nat) (student_id : String) (distance : Nat)
  | pair (key1 key2 : Nat) (student_id : String) (distance distance2 : Nat)
deriving DecidableEq

/-- Python dict assignment `clusters[cluster['id']] = distance` on the running
`clusters` dict, modelled as an association list in insertion order (the
multiset of yielded pairs does not depend on the dict's iteration order). -/
def assocUpdate (l : List (Nat × Nat)) (k v : Nat) : List (Nat × Nat) :=
  if l.any (fun p => p.1 == k) then l.map (fun p => if p.1 == k then (k, v) else p)
  else l ++ [(k, v)]

/-- The loop body of `ClusteringGenerator.map`: compute the distance, skip the
cluster when it exceeds `max_distance`, otherwise yield one pair per already
retained cluster, then the per-cluster yield, then store the distance. -/
def mapStep (student_id : String) (max_distance : Nat) (item_vector : List StudentDim)
    (acc : List Emission × List (Nat × Nat)) (cluster : Cluster) :
    List Emission × List (Nat × Nat) :=
  let distance := hamming_distance cluster.vector item_vector
  if max_distance < distance then acc
  else
    (acc.1 ++ acc.2.map (fun p => Emission.pair p.1 cluster.id student_id distance p.2)
       ++ [Emission.single cluster.id student_id distance],
     assocUpdate acc.2 cluster.id distance)

/-- Embedding of `ClusteringGenerator.map`: returns the list of yielded
`(key, value)` pairs and the final `clusters` mapping stored in
`StudentClusters`. -/
def ClusteringGenerator.map (student_id : String) (clusters : List Cluster)
    (max_distance : Nat) (item_vector : List StudentDim) :
    List Emission × List (Nat × Nat) :=
  clusters.foldl (mapStep student_id max_distance item_vector) ([], [])

/-- The emissions generated from a cluster list given the already retained
association list `ret`: the recursive unrolling of the loop of
`ClusteringGenerator.map`. -/
def emitFrom (student_id : String) (max_distance : Nat) (item_vector : List StudentDim) :
    List Cluster → List (Nat × Nat) → List Emission
  | [], _ => []
  | c :: rest, ret =>
      if max_distance < hamming_distance c.vector item_vector then
        emitFrom student_id max_distance item_vector rest ret
      else
        ret.map (fun p =>
            Emission.pair p.1 c.id student_id (hamming_distance c.vector item_vector) p.2)
          ++ [Emission.single c.id student_id (hamming_distance c.vector item_vector)]
          ++ emitFrom student_id max_distance item_vector rest
              (ret ++ [(c.id, hamming_distance c.vector item_vector)])

/-- The retained clusters of a list, as id-to-distance pairs in processing
order. -/
def retainedMap (max_distance : Nat) (item_vector : List StudentDim)
    (clusters : List Cluster) : List (Nat × Nat) :=
  (clusters.filter (fun c => hamming_distance c.vector item_vector ≤ max_distance)).map
    (fun c => (c.id, hamming_distance c.vector item_vector))

lemma assocUpdate_fresh (ret : List (Nat × Nat)) (k v : Nat)
    (h : ∀ p ∈ ret, p.1 ≠ k) : assocUpdate ret k v = ret ++ [(k, v)] := by
  have hany : ret.any (fun p => p.1 == k) = false := by
    rw [List.any_eq_false]
    intro p hp
    simp only [beq_iff_eq]
    exact h p hp
  rw [assocUpdate, if_neg (by simp [hany])]

lemma map_foldl_char (sid : String) (maxD : Nat) (v : List StudentDim) :
    ∀ (clusters : List Cluster) (em : List Emission) (ret : List (Nat × Nat)),
    (∀ c ∈ clusters, ∀ p ∈ ret, p.1 ≠ c.id) → (clusters.map (·.id)).Nodup →
    clusters.foldl (mapStep sid maxD v) (em, ret) =
      (em ++ emitFrom sid maxD v clusters ret, ret ++ retainedMap maxD v clusters) := by
  intro clusters
  induction clusters with
  | nil => intro em ret hfresh hnd; simp [emitFrom, retainedMap]
  | cons c rest ih =>
      intro em ret hfresh hnd
      simp only [List.map_cons, List.nodup_cons] at hnd
      obtain ⟨hcid, hnd'⟩ := hnd
      by_cases hd : maxD < hamming_distance c.vector v
      · have hstep : mapStep sid maxD v (em, ret) c = (em, ret) := by
          simp [mapStep, hd]
        have hfresh' : ∀ c' ∈ rest, ∀ p ∈ ret, p.1 ≠ c'.id := by
          intro c' hc' p hp
          exact hfresh c' (List.mem_cons_of_mem _ hc') p hp
        rw [List.foldl_cons, hstep, ih em ret hfresh' hnd']
        have hnle : ¬ (hamming_distance c.vector v ≤ maxD) := by omega
        have hemit : emitFrom sid maxD v (c :: rest) ret = emitFrom sid maxD v rest ret := by
          rw [emitFrom, if_pos hd]
        have hret : retainedMap maxD v (c :: rest) = retainedMap maxD v rest := by
          simp only [retainedMap, List.filter_cons]
          rw [if_neg (by simp [hnle])]
        rw [hemit, hret]
      · have hle : hamming_distance c.vector v ≤ maxD := by omega
        have hupd : assocUpdate ret c.id (hamming_distance c.vector v)
            = ret ++ [(c.id, hamming_distance c.vector v)] :=
          assocUpdate_fresh ret _ _ (fun p hp => hfresh c (List.mem_cons_self _ _) p hp)
        have hstep : mapStep sid maxD v (em, ret) c =
            (em ++ ret.map (fun p =>
                Emission.pair p.1 c.id sid (hamming_distance c.vector v) p.2)
              ++ [Emission.single c.id sid (hamming_distance c.vector v)],
             ret ++ [(c.id, hamming_distance c.vector v)]) := by
          rw [mapStep]
          simp only [hd, if_false, ite_false]
          rw [hupd]
        have hfresh' : ∀ c' ∈ rest,
            ∀ p ∈ ret ++ [(c.id, hamming_distance c.vector v)], p.1 ≠ c'.id := by
          intro c' hc' p hp
          rcases List.mem_append.mp hp with hin | hin
          · exact hfresh c' (List.mem_cons_of_mem _ hc') p hin
          · have hpc : p = (c.id, hamming_distance c.vector v) := by simpa using hin
            rw [hpc]
            intro hcc
            have hcc' : c.id = c'.id := hcc
            exact hcid (by rw [hcc']; exact List.mem_map.mpr ⟨c', hc', rfl⟩)
        rw [List.foldl_cons, hstep, ih _ _ hfresh' hnd']
        have hemit : emitFrom sid maxD v (c :: rest) ret =
            ret.map (fun p =>
                Emission.pair p.1 c.id sid (hamming_distance c.vector v) p.2)
              ++ [Emission.single c.id sid (hamming_distance c.vector v)]
              ++ emitFrom sid maxD v rest
                  (ret ++ [(c.id, hamming_distance c.vector v)]) := by
          rw [emitFrom, if_neg hd]
        have hret : retainedMap maxD v (c :: rest) =
            (c.id, hamming_distance c.vector v) :: retainedMap maxD v rest := by
          simp only [retainedMap, List.filter_cons]
          rw [if_pos (by simp [hle])]
          rfl
        rw [hemit, hret]
        simp [List.append_assoc]

lemma map_char (sid : String) (clusters : List Cluster) (maxD : Nat)
    (v : List StudentDim) (hnd : (clusters.map (·.id)).Nodup) :
    ClusteringGenerator.map sid clusters maxD v =
      (emitFrom sid maxD v clusters [], retainedMap maxD v clusters) := by
  have h := map_foldl_char sid maxD v clusters [] [] (by simp) hnd
  simpa [ClusteringGenerator.map] using h

/-- The cluster ids mentioned by one emission (the key for a single, both key
components for a pair). -/
def emissionIds : Emission → List Nat
  | .single key _ _ => [key]
  | .pair key1 key2 _ _ _ => [key1, key2]

lemma emitFrom_ids (sid : String) (maxD : Nat) (v : List StudentDim) :
    ∀ (clusters : List Cluster) (ret : List (Nat × Nat)) (e : Emission),
    e ∈ emitFrom sid maxD v clusters ret → ∀ i ∈ emissionIds e,
    (∃ p ∈ ret, p.1 = i) ∨
      ∃ c ∈ clusters, c.id = i ∧ hamming_distance c.vector v ≤ maxD := by
  intro clusters
  induction clusters with
  | nil =>
      intro ret e he
      simp [emitFrom] at he
  | cons c rest ih =>
      intro ret e he i hi
      by_cases hd : maxD < hamming_distance c.vector v
      · rw [emitFrom, if_pos hd] at he
        rcases ih ret e he i hi with h | ⟨c', hc', h⟩
        · exact Or.inl h
        · exact Or.inr ⟨c', List.mem_cons_of_mem _ hc', h⟩
      · have hle : hamming_distance c.vector v ≤ maxD := by omega
        rw [emitFrom, if_neg hd] at he
        rcases List.mem_append.mp he with he1 | hrec
        · rcases List.mem_append.mp he1 with hp | hs
          · obtain ⟨p, hpmem, rfl⟩ := List.mem_map.mp hp
            simp only [emissionIds, List.mem_cons, List.mem_singleton] at hi
            rcases hi with rfl | rfl | hfalse
            · exact Or.inl ⟨p, hpmem, rfl⟩
            · exact Or.inr ⟨c, List.mem_cons_self _ _, rfl, hle⟩
            · simp at hfalse
          · have he' : e = Emission.single c.id sid (hamming_distance c.vector v) := by
              simpa using hs
            rw [he'] at hi
            simp only [emissionIds, List.mem_singleton] at hi
            rw [hi]
            exact Or.inr ⟨c, List.mem_cons_self _ _, rfl, hle⟩
        · rcases ih _ e hrec i hi with ⟨p, hp, hpi⟩ | ⟨c', hc', h⟩
          · rcases List.mem_append.mp hp with hin | hin
            · exact Or.inl ⟨p, hin, hpi⟩
            · have hpc : p = (c.id, hamming_distance c.vector v) := by simpa using hin
              rw [hpc] at hpi
              exact Or.inr ⟨c, List.mem_cons_self _ _, hpi, hle⟩
          · exact Or.inr ⟨c', List.mem_cons_of_mem _ hc', h⟩

/-- Whether an emission is a pair emission with key exactly `(i, j)`. -/
def isPairKey (e : Emission) (i j : Nat) : Bool :=
  match e with
  | .pair k1 k2 _ _ _ => k1 == i && k2 == j
  | .single _ _ _ => false

/-- The number of pair emissions keyed `(i, j)` in a list of emissions. -/
def countPairKey (ems : List Emission) (i j : Nat) : Nat :=
  (ems.filter (fun e => isPairKey e i j)).length

lemma countPairKey_append (ems1 ems2 : List Emission) (i j : Nat) :
    countPairKey (ems1 ++ ems2) i j = countPairKey ems1 i j + countPairKey ems2 i j := by
  simp [countPairKey, List.filter_append]

lemma countPairKey_pairs (ret : List (Nat × Nat)) (cid : Nat) (sid : String) (d : Nat)
    (i j : Nat) :
    countPairKey (ret.map (fun p => Emission.pair p.1 cid sid d p.2)) i j
      = if cid = j then (ret.filter (fun p => p.1 == i)).length else 0 := by
  rw [countPairKey, length_filter_comp]
  by_cases hj : cid = j
  · rw [if_pos hj]
    congr 1
    apply List.filter_congr
    intro p hp
    simp [isPairKey, hj]
  · rw [if_neg hj]
    have h0 : (ret.filter
        (fun p => isPairKey (Emission.pair p.1 cid sid d p.2) i j)) = [] := by
      rw [List.filter_eq_nil]
      intro p hp
      simp [isPairKey, hj]
    rw [h0]
    rfl

lemma countPairKey_single (cid : Nat) (sid : String) (d : Nat) (i j : Nat) :
    countPairKey [Emission.single cid sid d] i j = 0 := rfl

lemma countPairKey_emitFrom_zero (sid : String) (maxD : Nat) (v : List StudentDim) :
    ∀ (clusters : List Cluster) (ret : List (Nat × Nat)) (i j : Nat),
    (∀ c ∈ clusters, c.id ≠ j) →
    countPairKey (emitFrom sid maxD v clusters ret) i j = 0 := by
  intro clusters
  induction clusters with
  | nil => intro ret i j hj; rfl
  | cons c rest ih =>
      intro ret i j hj
      by_cases hd : maxD < hamming_distance c.vector v
      · rw [emitFrom, if_pos hd]
        exact ih ret i j (fun c' hc' => hj c' (List.mem_cons_of_mem _ hc'))
      · rw [emitFrom, if_neg hd]
        rw [countPairKey_append, countPairKey_append, countPairKey_pairs,
          countPairKey_single,
          ih _ i j (fun c' hc' => hj c' (List.mem_cons_of_mem _ hc')),
          if_neg (hj c (List.mem_cons_self _ _))]

lemma retainedMap_cons_drop (maxD : Nat) (v : List StudentDim) (c : Cluster)
    (rest : List Cluster) (h : ¬ (hamming_distance c.vector v ≤ maxD)) :
    retainedMap maxD v (c :: rest) = retainedMap maxD v rest := by
  simp only [retainedMap, List.filter_cons]
  rw [if_neg (by simp [h])]

lemma retainedMap_cons_keep (maxD : Nat) (v : List StudentDim) (c : Cluster)
    (rest : List Cluster) (h : hamming_distance c.vector v ≤ maxD) :
    retainedMap maxD v (c :: rest)
      = (c.id, hamming_distance c.vector v) :: retainedMap maxD v rest := by
  simp only [retainedMap, List.filter_cons]
  rw [if_pos (by simp [h])]
  rfl

lemma emitFrom_append (sid : String) (maxD : Nat) (v : List StudentDim) :
    ∀ (xs ys : List Cluster) (ret : List (Nat × Nat)),
    emitFrom sid maxD v (xs ++ ys) ret
      = emitFrom sid maxD v xs ret
        ++ emitFrom sid maxD v ys (ret ++ retainedMap maxD v xs) := by
  intro xs
  induction xs with
  | nil => intro ys ret; simp [emitFrom, retainedMap]
  | cons c xs ih =>
      intro ys ret
      by_cases hd : maxD < hamming_distance c.vector v
      · have ha : emitFrom sid maxD v (c :: (xs ++ ys)) ret
            = emitFrom sid maxD v (xs ++ ys) ret := by rw [emitFrom, if_pos hd]
        have hc : emitFrom sid maxD v (c :: xs) ret = emitFrom sid maxD v xs ret := by
          rw [emitFrom, if_pos hd]
        rw [List.cons_append, ha, ih, hc, retainedMap_cons_drop maxD v c xs (by omega)]
      · have ha : emitFrom sid maxD v (c :: (xs ++ ys)) ret
            = ret.map (fun p =>
                Emission.pair p.1 c.id sid (hamming_distance c.vector v) p.2)
              ++ [Emission.single c.id sid (hamming_distance c.vector v)]
              ++ emitFrom sid maxD v (xs ++ ys)
                  (ret ++ [(c.id, hamming_distance c.vector v)]) := by
          rw [emitFrom, if_neg hd]
        have hc : emitFrom sid maxD v (c :: xs) ret
            = ret.map (fun p =>
                Emission.pair p.1 c.id sid (hamming_distance c.vector v) p.2)
              ++ [Emission.single c.id sid (hamming_distance c.vector v)]
              ++ emitFrom sid maxD v xs
                  (ret ++ [(c.id, hamming_distance c.vector v)]) := by
          rw [emitFrom, if_neg hd]
        rw [List.cons_append, ha, ih, hc, retainedMap_cons_keep maxD v c xs (by omega)]
        simp [List.append_assoc]

lemma retainedMap_keys (maxD : Nat) (v : List StudentDim) (l : List Cluster)
    (p : Nat × Nat) (hp : p ∈ retainedMap maxD v l) : p.1 ∈ l.map (·.id) := by
  simp only [retainedMap, List.mem_map, List.mem_filter] at hp
  obtain ⟨c, ⟨hc, -⟩, rfl⟩ := hp
  exact List.mem_map.mpr ⟨c, hc, rfl⟩

lemma filter_key_nil (l : List (Nat × Nat)) (i : Nat) (h : ∀ p ∈ l, p.1 ≠ i) :
    l.filter (fun p => p.1 == i) = [] := by
  rw [List.filter_eq_nil]
  intro p hp
  simpa using h p hp

/-- Claim C5: the default threshold is 2; a cluster is stored in the student's
cluster-to-distance mapping exactly when its Hamming distance is at most
`max_distance` (distance equal to the threshold is retained, strictly greater
discarded); and every id appearing in any emission belongs to a retained
cluster. -/
theorem clustering_map_threshold_filter (sid : String) (clusters : List Cluster)
    (maxD : Nat) (v : List StudentDim) (hnd : (clusters.map (·.id)).Nodup) :
    MAX_DISTANCE = 2 ∧
    (∀ i d : Nat, (i, d) ∈ (ClusteringGenerator.map sid clusters maxD v).2 ↔
      ∃ c ∈ clusters, c.id = i ∧ hamming_distance c.vector v = d ∧ d ≤ maxD) ∧
    (∀ e ∈ (ClusteringGenerator.map sid clusters maxD v).1, ∀ i ∈ emissionIds e,
      ∃ c ∈ clusters, c.id = i ∧ hamming_distance c.vector v ≤ maxD) := by
  have hchar := map_char sid clusters maxD v hnd
  refine ⟨rfl, ?_, ?_⟩
  · intro i d
    rw [hchar]
    show (i, d) ∈ retainedMap maxD v clusters ↔ _
    constructor
    · intro hmem
      simp only [retainedMap, List.mem_map, List.mem_filter] at hmem
      obtain ⟨c, ⟨hc, hle⟩, heq2⟩ := hmem
      have h1 : c.id = i := congrArg Prod.fst heq2
      have h2 : hamming_distance c.vector v = d := congrArg Prod.snd heq2
      refine ⟨c, hc, h1, h2, ?_⟩
      rw [← h2]
      simpa using hle
    · rintro ⟨c, hc, h1, h2, hle⟩
      simp only [retainedMap, List.mem_map, List.mem_filter]
      exact ⟨c, ⟨hc, by simp [h2, hle]⟩, by rw [h1, h2]⟩
  · intro e he i hi
    rw [hchar] at he
    rcases emitFrom_ids sid maxD v clusters [] e he i hi with ⟨p, hp, -⟩ | h
    · simp at hp
    · exact h

/-- Witness for claim C5: two clusters with distinct ids; the empty-vector
cluster (distance 0) is stored and the default threshold is 2. -/
theorem clustering_map_threshold_filter_witness :
    (([⟨1, []⟩, ⟨3, [⟨"u", "7", some 1, none⟩]⟩] : List Cluster).map (·.id)).Nodup ∧
    MAX_DISTANCE = 2 ∧
    (1, 0) ∈ (ClusteringGenerator.map "s" [⟨1, []⟩, ⟨3, [⟨"u", "7", some 1, none⟩]⟩] 2 []).2 := by
  have h := clustering_map_threshold_filter "s"
    [⟨1, []⟩, ⟨3, [⟨"u", "7", some 1, none⟩]⟩] 2 [] (by decide)
  exact ⟨by decide, h.1,
    (h.2.1 1 0).mpr ⟨⟨1, []⟩, List.mem_cons_self _ _, rfl, rfl, by decide⟩⟩

lemma nodup_split (m1 m2 m3 : List Nat) (a b : Nat)
    (h : (m1 ++ a :: m2 ++ b :: m3).Nodup) :
    a ≠ b ∧ a ∉ m1 ∧ a ∉ m2 ∧ a ∉ m3 ∧ b ∉ m1 ∧ b ∉ m2 ∧ b ∉ m3 := by
  obtain ⟨hL, hR, hdisj⟩ := List.nodup_append.mp h
  obtain ⟨h1, h2, hdisj1⟩ := List.nodup_append.mp hL
  obtain ⟨hna, hm2⟩ := List.nodup_cons.mp h2
  obtain ⟨hnb, hm3⟩ := List.nodup_cons.mp hR
  refine ⟨?_, ?_, hna, ?_, ?_, ?_, hnb⟩
  · intro heq
    exact hdisj (List.mem_append_right _ (List.mem_cons_self _ _))
      (by rw [heq]; exact List.mem_cons_self _ _)
  · intro hm
    exact hdisj1 hm (List.mem_cons_self _ _)
  · intro hm
    exact hdisj (List.mem_append_right _ (List.mem_cons_self _ _))
      (List.mem_cons_of_mem _ hm)
  · intro hm
    exact hdisj (List.mem_append_left _ hm) (List.mem_cons_self _ _)
  · intro hm
    exact hdisj (List.mem_append_right _ (List.mem_cons_of_mem _ hm))
      (List.mem_cons_self _ _)

lemma retainedMap_append (maxD : Nat) (v : List StudentDim) (xs ys : List Cluster) :
    retainedMap maxD v (xs ++ ys) = retainedMap maxD v xs ++ retainedMap maxD v ys := by
  simp [retainedMap, List.filter_append]

lemma emitFrom_cons_keep (sid : String) (maxD : Nat) (v : List StudentDim)
    (c : Cluster) (rest : List Cluster) (ret : List (Nat × Nat))
    (h : ¬ (maxD < hamming_distance c.vector v)) :
    emitFrom sid maxD v (c :: rest) ret
      = ret.map (fun p => Emission.pair p.1 c.id sid (hamming_distance c.vector v) p.2)
        ++ [Emission.single c.id sid (hamming_distance c.vector v)]
        ++ emitFrom sid maxD v rest (ret ++ [(c.id, hamming_distance c.vector v)]) := by
  rw [emitFrom, if_neg h]

/-- Claim C6: when cluster `ca` is processed before cluster `cb` and both are
retained, the classifier yields the pair key `(ca.id, cb.id)` exactly once and
never the reversed key `(cb.id, ca.id)`. -/
theorem clustering_map_pair_uniqueness (sid : String) (maxD : Nat) (v : List StudentDim)
    (l1 l2 l3 : List Cluster) (ca cb : Cluster)
    (hnd : ((l1 ++ ca :: l2 ++ cb :: l3).map (·.id)).Nodup)
    (ha : hamming_distance ca.vector v ≤ maxD)
    (hb : hamming_distance cb.vector v ≤ maxD) :
    countPairKey (ClusteringGenerator.map sid (l1 ++ ca :: l2 ++ cb :: l3) maxD v).1
        ca.id cb.id = 1 ∧
    countPairKey (ClusteringGenerator.map sid (l1 ++ ca :: l2 ++ cb :: l3) maxD v).1
        cb.id ca.id = 0 := by
  obtain ⟨hab, hal1, hal2, hal3, hbl1, hbl2, hbl3⟩ :=
    nodup_split (l1.map (·.id)) (l2.map (·.id)) (l3.map (·.id)) ca.id cb.id
      (by simpa [List.map_append, List.map_cons] using hnd)
  have F1 : ∀ c ∈ l1, c.id ≠ cb.id :=
    fun c hc he => hbl1 (he ▸ List.mem_map.mpr ⟨c, hc, rfl⟩)
  have F3 : ∀ c ∈ l2, c.id ≠ cb.id :=
    fun c hc he => hbl2 (he ▸ List.mem_map.mpr ⟨c, hc, rfl⟩)
  have F4 : ∀ c ∈ l3, c.id ≠ cb.id :=
    fun c hc he => hbl3 (he ▸ List.mem_map.mpr ⟨c, hc, rfl⟩)
  have F5 : ∀ c ∈ l1, c.id ≠ ca.id :=
    fun c hc he => hal1 (he ▸ List.mem_map.mpr ⟨c, hc, rfl⟩)
  have F6 : ∀ c ∈ l2, c.id ≠ ca.id :=
    fun c hc he => hal2 (he ▸ List.mem_map.mpr ⟨c, hc, rfl⟩)
  have F7 : ∀ c ∈ l3, c.id ≠ ca.id :=
    fun c hc he => hal3 (he ▸ List.mem_map.mpr ⟨c, hc, rfl⟩)
  have h1 : (ClusteringGenerator.map sid (l1 ++ ca :: l2 ++ cb :: l3) maxD v).1
      = emitFrom sid maxD v (l1 ++ ca :: l2 ++ cb :: l3) [] := by
    rw [map_char sid _ maxD v hnd]
  have hda : ¬ (maxD < hamming_distance ca.vector v) := by omega
  have hdb : ¬ (maxD < hamming_distance cb.vector v) := by omega
  rw [h1]
  rw [emitFrom_append sid maxD v (l1 ++ ca :: l2) (cb :: l3) []]
  rw [emitFrom_append sid maxD v l1 (ca :: l2) []]
  simp only [List.nil_append]
  rw [emitFrom_cons_keep sid maxD v ca l2 (retainedMap maxD v l1) hda]
  rw [retainedMap_append maxD v l1 (ca :: l2)]
  rw [retainedMap_cons_keep maxD v ca l2 ha]
  rw [emitFrom_cons_keep sid maxD v cb l3 _ hdb]
  have hr1a : (retainedMap maxD v l1).filter (fun p => p.1 == ca.id) = [] :=
    filter_key_nil _ _ (fun p hp he => hal1 (he ▸ retainedMap_keys maxD v l1 p hp))
  have hr2a : (retainedMap maxD v l2).filter (fun p => p.1 == ca.id) = [] :=
    filter_key_nil _ _ (fun p hp he => hal2 (he ▸ retainedMap_keys maxD v l2 p hp))
  have hr1b : (retainedMap maxD v l1).filter (fun p => p.1 == cb.id) = [] :=
    filter_key_nil _ _ (fun p hp he => hbl1 (he ▸ retainedMap_keys maxD v l1 p hp))
  constructor
  · simp only [countPairKey_append, countPairKey_pairs, countPairKey_single]
    rw [countPairKey_emitFrom_zero sid maxD v l1 _ ca.id cb.id F1,
      countPairKey_emitFrom_zero sid maxD v l2 _ ca.id cb.id F3,
      countPairKey_emitFrom_zero sid maxD v l3 _ ca.id cb.id F4]
    rw [if_neg hab]
    simp only [if_true]
    rw [List.filter_append, List.filter_cons]
    rw [if_pos (show ((ca.id, hamming_distance ca.vector v).1 == ca.id) = true by simp)]
    rw [hr1a, hr2a]
    simp
  · simp only [countPairKey_append, countPairKey_pairs, countPairKey_single]
    rw [countPairKey_emitFrom_zero sid maxD v l1 _ cb.id ca.id F5,
      countPairKey_emitFrom_zero sid maxD v l2 _ cb.id ca.id F6,
      countPairKey_emitFrom_zero sid maxD v l3 _ cb.id ca.id F7]
    simp only [if_true]
    rw [if_neg (fun he => hab he.symm)]
    rw [hr1b]
    simp

/-- Witness for claim C6: two retained clusters with ids 1 and 2; the pair key
(1, 2) is yielded once and (2, 1) never. -/
theorem clustering_map_pair_uniqueness_witness :
    (([⟨1, []⟩, ⟨2, []⟩] : List Cluster).map (·.id)).Nodup ∧
    countPairKey (ClusteringGenerator.map "s" [⟨1, []⟩, ⟨2, []⟩] 2 []).1 1 2 = 1 ∧
    countPairKey (ClusteringGenerator.map "s" [⟨1, []⟩, ⟨2, []⟩] 2 []).1 2 1 = 0 := by
  have h := clustering_map_pair_uniqueness "s" 2 [] [] [] []
    ⟨1, []⟩ ⟨2, []⟩ (by decide) (by decide) (by decide)
  exact ⟨by decide, h.1, h.2⟩

/-- Claim C2 (code bug relative to the docstring and the spec): with cluster 1
at distance 0 and cluster 2 at distance 1, the pair yield under key (1, 2)
carries the value (student, 1, 0) — the second component is the distance to
cluster 2, the SECOND id of the key, and the third the distance to cluster 1 —
whereas the docstring of `ClusteringGenerator.map` (and the spec) say the
second component is the distance to the first id of the key, i.e. (student, 0, 1). -/
theorem clustering_map_pair_value_order_swapped :
    hamming_distance ([] : List ClusterDim) [] = 0 ∧
    hamming_distance [⟨"u", "7", some 1, none⟩] [] = 1 ∧
    (ClusteringGenerator.map "s1" [⟨1, []⟩, ⟨2, [⟨"u", "7", some 1, none⟩]⟩] 2 []).1 =
      [Emission.single 1 "s1" 0,
       Emission.pair 1 2 "s1" 1 0,
       Emission.single 2 "s1" 1] := by
  refine ⟨rfl, ?_, ?_⟩ <;> decide
